import Mathlib

/-!
Shallow embedding of the job orchestration and promo scheduling core of
`scraper_service.py` (tg-scraper).  Python dictionaries holding job records
are modelled as association lists, SQLite tables as lists of row structures,
and wall-clock timestamps as integers (the code only compares parsed
timestamps, so the embedding carries already-parsed time values; a missing or
unparseable timestamp is `none`, matching `_parse_iso` returning `None`).
Nondeterministic collaborators (the Telegram client's send outcomes,
`random.choice`) are passed in as explicit oracle functions.
-/

namespace TgScraper


/-- Constant `JOB_RETENTION_SECONDS = 3600` from the configuration block. -/
def JOB_RETENTION_SECONDS : Int := 3600

/-- Constant `PROMO_SLOTS = ("morning", "noon", "evening")`. -/
def PROMO_SLOTS : List String := ["morning", "noon", "evening"]

/-- A scrape-job record, the value stored in the `SCRAPE_JOBS` dictionary
(fields created in the `/scrape` endpoint and mutated by `_update_job`).
`finishedAt` holds the parsed `finished_at` timestamp: `none` models both a
missing value and a string `_parse_iso` rejects. -/
structure ScrapeJobRec where
  status : String
  total : Nat
  processed : Nat
  startedAt : Option Int
  finishedAt : Option Int
  error : Option String
  csvPath : Option String
  chatTitle : Option String
  cancelRequested : Bool := false
  deriving Repr, DecidableEq

/-- A Python `datetime` value as this code produces it: a point on a common
time scale plus whether the value is timezone-aware.  `_parse_iso` always
returns an aware value (it forces `tzinfo=UTC` when missing, lines
337–338), while `datetime.utcnow()` is naive. -/
structure PyDatetime where
  seconds : Int
  aware : Bool
  deriving Repr, DecidableEq

/-- Python comparison `a < b` of two `datetime` values: comparing a naive
value with an aware one raises `TypeError`. -/
def pyDatetimeLt (a b : PyDatetime) : Except String Bool :=
  if a.aware = b.aware then .ok (decide (a.seconds < b.seconds))
  else .error "TypeError: cannot compare offset-naive and offset-aware datetimes"

/-- Result of `_parse_iso` on a stored `finished_at` string: the parsed
timestamp is always timezone-aware (`finished_at` is written by
`_current_iso()`, an aware UTC ISO string, and `_parse_iso` forces
`tzinfo` even on a naive input). -/
def parse_iso_finished (t : Int) : PyDatetime := { seconds := t, aware := true }

/-- The cutoff
`datetime.utcnow() - timedelta(seconds=JOB_RETENTION_SECONDS)`:
`utcnow()` is naive. -/
def cleanupCutoff (now : Int) : PyDatetime :=
  { seconds := now - JOB_RETENTION_SECONDS, aware := false }

/-- The `stale_ids` scan of `cleanup_finished_jobs`: skip any job whose
status is outside `{"done", "error"}`, skip a missing or unparseable
`finished_at`, and otherwise evaluate `finished_dt < cutoff` — the point
where Python raises `TypeError`, aborting the whole operation before
anything is popped. -/
def cleanup_scan (cutoff : PyDatetime) :
    List (String × ScrapeJobRec) → Except String (List String)
  | [] => .ok []
  | p :: rest =>
      if p.2.status = "done" ∨ p.2.status = "error" then
        match p.2.finishedAt with
        | some t =>
            match pyDatetimeLt (parse_iso_finished t) cutoff with
            | .error e => .error e
            | .ok true =>
                match cleanup_scan cutoff rest with
                | .error e => .error e
                | .ok stale => .ok (p.1 :: stale)
            | .ok false => cleanup_scan cutoff rest
        | none => cleanup_scan cutoff rest
      else cleanup_scan cutoff rest

/-- Operation `cleanup_finished_jobs`: compute `stale_ids`, then pop them
from the registry; an exception raised during the scan propagates to the
caller and no job is removed. -/
def cleanup_finished_jobs (jobs : List (String × ScrapeJobRec)) (now : Int) :
    Except String (List (String × ScrapeJobRec)) :=
  match cleanup_scan (cleanupCutoff now) jobs with
  | .error e => .error e
  | .ok staleIds => .ok (jobs.filter fun p => decide (p.1 ∉ staleIds))

/-- A `members` table row (`Member` pydantic model / `members` columns).
`addedAt` keeps the textual `added_at` (the recipient query orders by it),
while `lastBroadcastAt` only matters as present/absent for the claims. -/
structure Member where
  id : Nat
  username : Option String
  addedAt : String
  lastBroadcastAt : Option String
  lastBroadcastStatus : Option String
  isHr : Bool
  sourceChat : Option String
  deriving Repr, DecidableEq

/-- The `WHERE` clause of `_fetch_pending_broadcast_members_sync`:
`last_broadcast_at IS NULL AND IFNULL(is_hr, 0) = 0`, plus
`AND source_chat = ?` when a source-chat filter is supplied. -/
def pendingBroadcastPred (sourceChat : Option String) (m : Member) : Bool :=
  m.lastBroadcastAt = none && !m.isHr &&
    (match sourceChat with
     | none => true
     | some s => m.sourceChat = some s)

/-- Insert a member into a list sorted by `added_at` (ascending). -/
def insertByAddedAt (m : Member) : List Member → List Member
  | [] => [m]
  | x :: xs => if m.addedAt ≤ x.addedAt then m :: x :: xs else x :: insertByAddedAt m xs

/-- The `ORDER BY added_at ASC` of the recipient query, as a sort. -/
def sortByAddedAt : List Member → List Member
  | [] => []
  | x :: xs => insertByAddedAt x (sortByAddedAt xs)

/-- The pending-recipient query without its `LIMIT` clause: filter the
`members` table by the pending-broadcast predicate and order by
`added_at` ascending. -/
def pendingRows (table : List Member) (sourceChat : Option String) : List Member :=
  sortByAddedAt (table.filter (pendingBroadcastPred sourceChat))

/-- Query `_fetch_pending_broadcast_members_sync`: filter the `members` table by
the pending-broadcast predicate, order by `added_at` ascending, and apply
`LIMIT` only when a positive limit was supplied. -/
def fetch_pending_broadcast_members (table : List Member) (lim : Option Nat)
    (sourceChat : Option String) : List Member :=
  match lim with
  | some n =>
      if 0 < n then (pendingRows table sourceChat).take n
      else pendingRows table sourceChat
  | none => pendingRows table sourceChat

/-- The limit normalisation performed by `send_start`:
`limit = req.limit if req.limit and req.limit > 0 else None`. -/
def normalizedLimit (reqLimit : Option Nat) : Option Nat :=
  match reqLimit with
  | some n => if 0 < n then some n else none
  | none => none

/-- Endpoint `send_start` up to the recipient check: strip and validate the text,
normalise the limit, fetch the pending recipients eagerly, and reject the
submission when the list is empty; on success the fixed recipient list is
returned. -/
def send_start (table : List Member) (text : String) (reqLimit : Option Nat)
    (sourceChat : Option String) : Except String (List Member) :=
  if text.trim = "" then
    .error "Broadcast text is required."
  else if (fetch_pending_broadcast_members table (normalizedLimit reqLimit)
      sourceChat).isEmpty then
    .error "No recipients available for broadcast."
  else
    .ok (fetch_pending_broadcast_members table (normalizedLimit reqLimit) sourceChat)

/-- A `promo_groups` table row.  Timestamps (`added_at`, `last_sent_at`) are
abstracted to naturals; `peer_id`, `peer_type`, `access_hash`, `username`
are nullable columns. -/
structure PromoGroup where
  id : Nat
  title : Option String
  link : String
  enabled : Bool
  addedAt : Nat
  lastSentAt : Option Nat
  lastStatus : Option String
  peerId : Option Int
  peerType : Option String
  accessHash : Option Int
  username : Option String
  deriving Repr, DecidableEq

/-- A `promo_messages` table row. -/
structure PromoMessage where
  id : Nat
  text : String
  enabled : Bool
  addedAt : Nat
  deriving Repr, DecidableEq

/-- A `promo_history` table row (append-only dispatch log). -/
structure HistoryRow where
  dayKey : String
  slot : String
  groupId : Nat
  messageId : Option Nat
  plannedAt : Nat
  sentAt : Option Nat
  status : String
  details : Option String
  deriving Repr, DecidableEq

/-- Whether `_group_to_input_peer` succeeds (returns a peer rather than `None`):
`peer_id` and `peer_type` must be present and truthy (non-zero, non-empty);
a `chat` peer needs nothing else, any other type needs an `access_hash`. -/
def groupHasSendablePeer (g : PromoGroup) : Bool :=
  match g.peerId, g.peerType with
  | some p, some t =>
      if p = 0 ∨ t = "" then false
      else if t = "chat" then true
      else g.accessHash.isSome
  | _, _ => false

/-- The Python truthiness test `group.get("peer_id")` used by
`_get_active_promo_groups`. -/
def peerIdTruthy (g : PromoGroup) : Bool :=
  match g.peerId with
  | some p => decide (p ≠ 0)
  | none => false

/-- Operation `_get_active_promo_groups` (after the store read): keep the enabled
groups that carry a truthy `peer_id`. -/
def activePromoGroups (table : List PromoGroup) : List PromoGroup :=
  table.filter fun g => g.enabled && peerIdTruthy g

/-- Operation `_get_active_promo_messages`: keep the enabled messages. -/
def activePromoMessages (table : List PromoMessage) : List PromoMessage :=
  table.filter (·.enabled)

/-- Query `_fetch_slot_done_groups_sync`: the group ids having any `promo_history`
row for the given day-key and slot, regardless of the row's status. -/
def fetch_slot_done_groups (h : List HistoryRow) (dayKey slot : String) : List Nat :=
  (h.filter fun r => r.dayKey = dayKey && r.slot = slot).map (·.groupId)

/-- Operation `_get_pending_groups`: the groups with no history row yet for
(day-key, slot) (`group["id"] not in done_ids`). -/
def get_pending_groups (slot dayKey : String) (groups : List PromoGroup)
    (h : List HistoryRow) : List PromoGroup :=
  groups.filter fun g => decide (g.id ∉ fetch_slot_done_groups h dayKey slot)

/-- Outcome of one `client.send_message` call, the oracle for the Telegram
collaborator (`FloodWaitError` carries the mandated wait in seconds). -/
inductive SendOutcome where
  | success
  | floodWait (seconds : Nat)
  | rpcError (name : String)
  | otherError (msg : String)
  deriving Repr, DecidableEq

/-- The (status, details, sent-at?, attempted?, flood-sleep) quintuple the
body of the `_run_promo_slot` target loop computes for one group: an invalid
peer is recorded failed without a send; a flood wait records failed with a
`flood_wait:` detail and sleeps `min(wait_seconds + 1, 120)`; RPC and other
errors record failed; success records sent. -/
structure SendResult where
  status : String
  details : Option String
  sentNow : Bool
  attempted : Bool
  floodSleep : Option Nat
  deriving Repr, DecidableEq

def sendToGroup (send : PromoGroup → SendOutcome) (g : PromoGroup) : SendResult :=
  if groupHasSendablePeer g then
    match send g with
    | .success =>
        { status := "sent", details := none, sentNow := true, attempted := true,
          floodSleep := none }
    | .floodWait w =>
        { status := "failed", details := some ("flood_wait:" ++ toString w),
          sentNow := false, attempted := true, floodSleep := some (min (w + 1) 120) }
    | .rpcError n =>
        { status := "failed", details := some ("rpc_error:" ++ n),
          sentNow := false, attempted := true, floodSleep := none }
    | .otherError s =>
        { status := "failed", details := some ("error:" ++ s),
          sentNow := false, attempted := true, floodSleep := none }
  else
    { status := "failed", details := some "invalid_peer", sentNow := false,
      attempted := false, floodSleep := none }

/-- The effect of one iteration of the `_run_promo_slot` loop:
the `_record_promo_result` history row, whether a send call was made,
the flood-wait sleep if any, and the `_update_group_send_stats_sync`
write (group id, sent-at, status). -/
structure GroupAttempt where
  row : HistoryRow
  sendAttempted : Bool
  floodSleep : Option Nat
  stat : Nat × Option Nat × String
  deriving Repr, DecidableEq

/-- One iteration of the `_run_promo_slot` loop for pending group `g` at
index `idx` (`choose idx` models `random.choice(messages)`). -/
def attemptGroup (send : PromoGroup → SendOutcome) (choose : Nat → PromoMessage)
    (dayKey slot : String) (plannedAt now : Nat) (idx : Nat) (g : PromoGroup) :
    GroupAttempt :=
  { row := { dayKey := dayKey, slot := slot, groupId := g.id,
             messageId := some (choose idx).id, plannedAt := plannedAt,
             sentAt := if (sendToGroup send g).sentNow then some now else none,
             status := (sendToGroup send g).status,
             details := (sendToGroup send g).details },
    sendAttempted := (sendToGroup send g).attempted,
    floodSleep := (sendToGroup send g).floodSleep,
    stat := (g.id, if (sendToGroup send g).sentNow then some now else none,
            (sendToGroup send g).status) }

/-- The `_run_promo_slot` target loop over the pending list. -/
def slotPassRows (send : PromoGroup → SendOutcome) (choose : Nat → PromoMessage)
    (dayKey slot : String) (plannedAt now : Nat) :
    List PromoGroup → Nat → List GroupAttempt
  | [], _ => []
  | g :: gs, idx =>
      attemptGroup send choose dayKey slot plannedAt now idx g ::
        slotPassRows send choose dayKey slot plannedAt now gs (idx + 1)

/-- Observable result of `_run_promo_slot`: its return value, the
`promo_history` table afterwards, the group ids a send call was issued for,
the flood-wait sleeps performed, and the group-stat writes.  (The
randomized inter-target delay between groups does not affect any claim and
is not tracked.) -/
structure SlotRunResult where
  completed : Bool
  history : List HistoryRow
  attempts : List Nat
  floodSleeps : List Nat
  statWrites : List (Nat × Option Nat × String)
  deriving Repr, DecidableEq

/-- Dispatch `_run_promo_slot`: skip (not completed) when paused, when no active
group or no active message is configured; immediately completed when no
group is pending for (day-key, slot); otherwise attempt every pending
group once, appending one history row per group, and report completed. -/
def run_promo_slot (paused : Bool) (groupsTable : List PromoGroup)
    (messagesTable : List PromoMessage) (history : List HistoryRow)
    (dayKey slot : String) (plannedAt now : Nat)
    (send : PromoGroup → SendOutcome) (choose : Nat → PromoMessage) : SlotRunResult :=
  if paused then
    { completed := false, history := history, attempts := [], floodSleeps := [],
      statWrites := [] }
  else if (activePromoGroups groupsTable).isEmpty then
    { completed := false, history := history, attempts := [], floodSleeps := [],
      statWrites := [] }
  else if (activePromoMessages messagesTable).isEmpty then
    { completed := false, history := history, attempts := [], floodSleeps := [],
      statWrites := [] }
  else if (get_pending_groups slot dayKey (activePromoGroups groupsTable) history).isEmpty then
    { completed := true, history := history, attempts := [], floodSleeps := [],
      statWrites := [] }
  else
    { completed := true,
      history := history ++ (slotPassRows send choose dayKey slot plannedAt now
        (get_pending_groups slot dayKey (activePromoGroups groupsTable) history) 0).map (·.row),
      attempts := ((slotPassRows send choose dayKey slot plannedAt now
        (get_pending_groups slot dayKey (activePromoGroups groupsTable) history) 0).filter
          (·.sendAttempted)).map (·.row.groupId),
      floodSleeps := (slotPassRows send choose dayKey slot plannedAt now
        (get_pending_groups slot dayKey (activePromoGroups groupsTable) history) 0).filterMap
          (·.floodSleep),
      statWrites := (slotPassRows send choose dayKey slot plannedAt now
        (get_pending_groups slot dayKey (activePromoGroups groupsTable) history) 0).map (·.stat) }

/-- Number of `promo_history` rows for a (day-key, slot, group) triple. -/
def rowCount (h : List HistoryRow) (d s : String) (g : Nat) : Nat :=
  (h.filter fun r => r.dayKey = d && r.slot = s && r.groupId = g).length

/-- Number of `promo_history` rows with status `sent` for a
(day-key, slot, group) triple. -/
def sentCount (h : List HistoryRow) (d s : String) (g : Nat) : Nat :=
  (h.filter fun r => r.dayKey = d && r.slot = s && r.groupId = g &&
    r.status = "sent").length

/-- A job record that is terminal per the spec (`cancelled`) with a
finish time far in the past. -/
def cancelledOldJob : ScrapeJobRec :=
  { status := "cancelled", total := 5, processed := 5, startedAt := some 0,
    finishedAt := some 0, error := none, csvPath := none, chatTitle := none,
    cancelRequested := true }

/-- A finished collection job: status `done`, with a parseable (hence
aware) finished-at far in the past. -/
def doneOldJob : ScrapeJobRec :=
  { status := "done", total := 5, processed := 5, startedAt := some 0,
    finishedAt := some 0, error := none, csvPath := none, chatTitle := none,
    cancelRequested := false }

/-- A member with no recorded outreach and no HR flag, eligible for
broadcast. -/
def memberEligible : Member :=
  { id := 1, username := some "alice", addedAt := "2024-01-01T00:00:00",
    lastBroadcastAt := none, lastBroadcastStatus := none, isHr := false,
    sourceChat := some "chatA" }

/-- A member with a pre-existing outreach timestamp, ineligible for
broadcast. -/
def memberContacted : Member :=
  { id := 2, username := some "bob", addedAt := "2024-01-02T00:00:00",
    lastBroadcastAt := some "2024-02-01T00:00:00",
    lastBroadcastStatus := some "sent", isHr := false,
    sourceChat := some "chatA" }

/-- A concrete enabled promo group with a sendable channel peer. -/
def promoGroupX : PromoGroup :=
  { id := 1, title := some "G1", link := "https://t.me/g1", enabled := true,
    addedAt := 0, lastSentAt := none, lastStatus := none, peerId := some 10,
    peerType := some "channel", accessHash := some 7, username := some "g1" }

/-- A concrete enabled promo message. -/
def promoMsgA : PromoMessage :=
  { id := 1, text := "promo text", enabled := true, addedAt := 0 }

/-- A send oracle that always raises `FloodWaitError(300)`. -/
def floodSend300 : PromoGroup → SendOutcome := fun _ => .floodWait 300

/-- A message-choice oracle that always picks `promoMsgA`. -/
def chooseMsgA : Nat → PromoMessage := fun _ => promoMsgA

/-- A send oracle that always succeeds. -/
def sendAlwaysOk : PromoGroup → SendOutcome := fun _ => .success

/-- The `SendResult` the loop body computes in its `FloodWaitError` handler. -/
def floodWaitResult (w : Nat) : SendResult :=
  { status := "failed", details := some ("flood_wait:" ++ toString w),
    sentNow := false, attempted := true, floodSleep := some (min (w + 1) 120) }

/-- Events touching the promo scheduler state: process startup
(`on_startup`, which re-pauses), the `/promo/pause` and `/promo/resume`
endpoints, and a scheduler wake that (when a slot is due and has pending
targets) invokes `_run_promo_slot` with the current pause flag. -/
inductive PromoEvent where
  | startup
  | pauseCmd
  | resumeCmd
  | wake (groupsTable : List PromoGroup) (messagesTable : List PromoMessage)
      (dayKey slot : String) (plannedAt now : Nat)
      (send : PromoGroup → SendOutcome) (choose : Nat → PromoMessage)

/-- The promo scheduler's process-wide state: the `promo_paused` flag, the
durable `promo_history` table, and the group ids a send call has ever been
issued for. -/
structure PromoState where
  paused : Bool
  history : List HistoryRow
  attempts : List Nat

/-- The effect of one event on the promo scheduler state.  `on_startup`
sets `promo_paused = True`; `/promo/pause` sets it; `/promo/resume`
clears it (the only operation that does); a wake runs `_run_promo_slot`
reading the current pause flag. -/
def promoStep (st : PromoState) : PromoEvent → PromoState
  | .startup => { st with paused := true }
  | .pauseCmd => { st with paused := true }
  | .resumeCmd => { st with paused := false }
  | .wake gt mt d s p n send choose =>
      { paused := st.paused,
        history := (run_promo_slot st.paused gt mt st.history d s p n send choose).history,
        attempts := st.attempts ++
          (run_promo_slot st.paused gt mt st.history d s p n send choose).attempts }

/-- Whether an event is the explicit resume operation. -/
def PromoEvent.isResume : PromoEvent → Bool
  | .resumeCmd => true
  | _ => false

/-- A `promo_schedule` table row (slot name, hour, minute). -/
structure ScheduleRow where
  slot : String
  hour : Int
  minute : Int
  deriving Repr, DecidableEq

/-- The ascending comparison used by
`plan.sort(key=lambda e: (e["hour"], e["minute"], e["slot"]))`. -/
def scheduleRowLe (a b : ScheduleRow) : Bool :=
  decide (a.hour < b.hour) ||
    (a.hour = b.hour && (decide (a.minute < b.minute) ||
      (a.minute = b.minute && decide (a.slot ≤ b.slot))))

/-- Insert a schedule row into a list sorted by (hour, minute, slot). -/
def insertScheduleRow (r : ScheduleRow) : List ScheduleRow → List ScheduleRow
  | [] => [r]
  | x :: xs => if scheduleRowLe r x then r :: x :: xs else x :: insertScheduleRow r xs

/-- The sort in `_build_schedule_plan_for_day`. -/
def sortScheduleRows : List ScheduleRow → List ScheduleRow
  | [] => []
  | x :: xs => insertScheduleRow x (sortScheduleRows xs)

/-- A slot's start as minutes after local midnight of the base day. -/
def slotStartMinutes (r : ScheduleRow) : Int := r.hour * 60 + r.minute

/-- A plan entry of `_build_schedule_plan_for_day`: the slot with its
half-open window [localStart, nextStart) in minutes after local midnight. -/
structure PlanEntry where
  slot : String
  hour : Int
  minute : Int
  localStart : Int
  nextStart : Int
  deriving Repr, DecidableEq

/-- The `next_start` assignment: the cyclically next entry's start, pushed one
day (1440 minutes) later when it does not come strictly after this entry. -/
def planNextStart (sorted : List ScheduleRow) (i : Nat) (entry : ScheduleRow) : Int :=
  match sorted[(i + 1) % sorted.length]? with
  | some nxt =>
      if slotStartMinutes nxt ≤ slotStartMinutes entry
      then slotStartMinutes nxt + 1440 else slotStartMinutes nxt
  | none => slotStartMinutes entry + 1440

/-- Plan builder `_build_schedule_plan_for_day` over minute arithmetic: sort the rows,
compute each start, and assign wrapped next-starts. -/
def build_schedule_plan_for_day (rows : List ScheduleRow) : List PlanEntry :=
  (sortScheduleRows rows).mapIdx fun i r =>
    { slot := r.slot, hour := r.hour, minute := r.minute,
      localStart := slotStartMinutes r,
      nextStart := planNextStart (sortScheduleRows rows) i r }

/-- Lookup in the `promo_slot_last_day` dictionary. -/
def lookupCache (c : List (String × String)) (slot : String) : Option String :=
  (c.find? fun p => p.1 = slot).map (·.2)

/-- Assignment `promo_slot_last_day[slot] = day_key`. -/
def setCache (c : List (String × String)) (slot day : String) :
    List (String × String) :=
  if (c.find? fun p => p.1 = slot).isSome
  then c.map fun p => if p.1 = slot then (slot, day) else p
  else c ++ [(slot, day)]

/-- Accumulator of the per-slot loop in `_promo_scheduler_iteration`: the
fast-path cache and the slots for which `_run_promo_slot` was invoked. -/
structure IterAcc where
  cache : List (String × String)
  dispatched : List String
  deriving Repr, DecidableEq

/-- One slot's decision in the `_promo_scheduler_iteration` loop: skip a
slot already cached for today; skip a slot not yet started; when `now` is
at or after the window's end, mark the slot complete for today WITHOUT
dispatching; otherwise dispatch (`completes` abstracts the Boolean result
of `_run_promo_slot`) and cache the day on completion. -/
def promo_iteration_step (day : String) (nowMin : Int) (completes : String → Bool)
    (acc : IterAcc) (e : PlanEntry) : IterAcc :=
  if lookupCache acc.cache e.slot = some day then acc
  else if nowMin < e.localStart then acc
  else if e.nextStart ≤ nowMin then { acc with cache := setCache acc.cache e.slot day }
  else { cache := if completes e.slot then setCache acc.cache e.slot day else acc.cache,
         dispatched := acc.dispatched ++ [e.slot] }

/-- Iteration `_promo_scheduler_iteration` (after schedule fetch): drop stale cache
entries of earlier days, build the plan, and run the per-slot loop. -/
def promo_scheduler_iteration (day : String) (nowMin : Int)
    (completes : String → Bool) (cache : List (String × String))
    (rows : List ScheduleRow) : IterAcc :=
  (build_schedule_plan_for_day rows).foldl (promo_iteration_step day nowMin completes)
    { cache := cache.filter fun p => p.2 = day, dispatched := [] }

/-- The default schedule (`PROMO_DEFAULT_SCHEDULE`): morning 09:00,
noon 13:00, evening 18:00. -/
def defaultScheduleRows : List ScheduleRow :=
  [{ slot := "morning", hour := 9, minute := 0 },
   { slot := "noon", hour := 13, minute := 0 },
   { slot := "evening", hour := 18, minute := 0 }]

/-- The stored (hour, minute) of a slot in the `promo_schedule` table. -/
def scheduleLookup (sched : List ScheduleRow) (slot : String) : Option (Int × Int) :=
  (sched.find? fun r => r.slot = slot).map fun r => (r.hour, r.minute)

/-- Upsert `_update_promo_schedule_entry_sync`:
`INSERT INTO promo_schedule VALUES (slot, hour, minute) ON CONFLICT(slot)
DO UPDATE SET hour = excluded.hour, minute = excluded.minute`. -/
def update_promo_schedule_entry (sched : List ScheduleRow) (slot : String)
    (hour minute : Int) : List ScheduleRow :=
  if (sched.find? fun r => r.slot = slot).isSome
  then sched.map fun r =>
    if r.slot = slot then { slot := slot, hour := hour, minute := minute } else r
  else sched ++ [{ slot := slot, hour := hour, minute := minute }]

/-- The `PUT /promo/schedule` endpoint: reject an unknown slot, then an
hour outside 0–23 or a minute outside 0–59, before touching the store;
otherwise upsert.  First component: the HTTP 400 detail when rejected;
second: the stored schedule afterwards. -/
def update_promo_schedule (sched : List ScheduleRow) (slot : String)
    (hour minute : Int) : Option String × List ScheduleRow :=
  if slot ∉ PROMO_SLOTS then (some "Unknown slot", sched)
  else if hour < 0 ∨ 23 < hour ∨ minute < 0 ∨ 59 < minute then
    (some "Invalid time", sched)
  else (none, update_promo_schedule_entry sched slot hour minute)

/-- The cancellation-flag read
`SCRAPE_JOBS.get(job_id, {}).get("cancel_requested")` at the check done for
the item with 0-based index `i`: `cancelAt = some k` means `/scrape_stop`
set the flag before check number `k` (the flag, once set, stays set). -/
def cancelObservedAt (cancelAt : Option Nat) (i : Nat) : Bool :=
  match cancelAt with
  | some k => decide (k ≤ i)
  | none => false

/-- The member-iteration loop of `scrape_users`, abstracted to member ids:
for each pulled item it increments `processed_total`, breaks if the
cancellation flag is set, tests novelty against the in-memory id set seeded
from the store, and for a novel id appends it to the job's accumulated list
and inserts it into the store (`_insert_member_sync`, immediately, inside
the loop).  Returns (`processed_total`, store id set, `job_members`). -/
def scrape_loop (cancelAt : Option Nat) :
    List Nat → Nat → List Nat → List Nat → Nat × List Nat × List Nat
  | [], i, existing, collected => (i, existing, collected)
  | u :: us, i, existing, collected =>
      if cancelObservedAt cancelAt i then (i + 1, existing, collected)
      else if u ∈ existing then scrape_loop cancelAt us (i + 1) existing collected
      else scrape_loop cancelAt us (i + 1) (existing ++ [u]) (collected ++ [u])

/-- Final job record of a collection run (the non-exception path of
`scrape_users`). -/
structure ScrapeRunResult where
  status : String
  processed : Nat
  total : Nat
  store : List Nat
  collected : List Nat
  finishedAtSet : Bool
  deriving Repr, DecidableEq

/-- Engine `scrape_users` without the exception path: run the loop — whether it
ends by exhausting the iterator or by the cancellation break — then write
the CSV export and finalize through `_update_job(status="done",
total=len(job_members), processed=processed_total, finished_at=...)`; the
same finalization runs for both exits. -/
def scrape_users (existingIds : List Nat) (users : List Nat)
    (cancelAt : Option Nat) : ScrapeRunResult :=
  { status := "done",
    processed := (scrape_loop cancelAt users 0 existingIds []).1,
    total := (scrape_loop cancelAt users 0 existingIds []).2.2.length,
    store := (scrape_loop cancelAt users 0 existingIds []).2.1,
    collected := (scrape_loop cancelAt users 0 existingIds []).2.2,
    finishedAtSet := true }

/-- A `BROADCAST_JOBS` record (fields created in `send_start`). -/
structure BroadcastJobRec where
  status : String
  total : Nat
  processed : Nat
  sentSuccess : Nat
  sentFailed : Nat
  finishedAt : Option Int
  cancelRequested : Bool
  message : Option String
  deriving Repr, DecidableEq

/-- Lookup `SCRAPE_JOBS.get(job_id)`. -/
def lookupScrapeJob (jobs : List (String × ScrapeJobRec)) (jobId : String) :
    Option ScrapeJobRec :=
  (jobs.find? fun p => p.1 = jobId).map (·.2)

/-- Lookup `BROADCAST_JOBS.get(job_id)`. -/
def lookupBroadcastJob (jobs : List (String × BroadcastJobRec)) (jobId : String) :
    Option BroadcastJobRec :=
  (jobs.find? fun p => p.1 = jobId).map (·.2)

/-- Operation `_update_job`: merge fields into the scrape-job record, no-op if the id
is unknown. -/
def update_job (jobs : List (String × ScrapeJobRec)) (jobId : String)
    (f : ScrapeJobRec → ScrapeJobRec) : List (String × ScrapeJobRec) :=
  jobs.map fun p => if p.1 = jobId then (p.1, f p.2) else p

/-- Operation `_update_broadcast_job`: merge fields into the broadcast-job record,
no-op if the id is unknown. -/
def update_broadcast_job (jobs : List (String × BroadcastJobRec)) (jobId : String)
    (f : BroadcastJobRec → BroadcastJobRec) : List (String × BroadcastJobRec) :=
  jobs.map fun p => if p.1 = jobId then (p.1, f p.2) else p

/-- The name `job_members` as resolved at the end of `broadcast_users`:
it is a local of `scrape_users` and is never assigned in `broadcast_users`,
so the lookup finds nothing (Python raises `NameError` on evaluation). -/
def broadcastLocalJobMembers : Option (List Nat) := none

/-- The name `processed_total` as resolved at the end of `broadcast_users`:
also never assigned there. -/
def broadcastLocalProcessedTotal : Option Nat := none

/-- The `status_value` expression at the end of `broadcast_users`:
`"cancelled" if SCRAPE_JOBS.get(job_id, {}).get("cancel_requested") else
"done"` — note it consults the SCRAPE jobs dictionary with a broadcast job
id. -/
def broadcast_finalize_status (scrapeJobs : List (String × ScrapeJobRec))
    (jobId : String) : String :=
  match lookupScrapeJob scrapeJobs jobId with
  | some j => if j.cancelRequested then "cancelled" else "done"
  | none => "done"

/-- The `try` body of the `broadcast_users` finalisation: evaluating
`_update_job(job_id, status=status_value, finished_at=..., total=len(job_members),
processed=processed_total)` must evaluate the unbound names `job_members`
and `processed_total` first and therefore raises `NameError`. -/
def broadcast_finalize_try (scrapeJobs : List (String × ScrapeJobRec))
    (jobId : String) (now : Int) : Except String (List (String × ScrapeJobRec)) :=
  match broadcastLocalJobMembers, broadcastLocalProcessedTotal with
  | some jm, some pt =>
      .ok (update_job scrapeJobs jobId fun j =>
        { j with status := broadcast_finalize_status scrapeJobs jobId,
                 finishedAt := some now, total := jm.length, processed := pt })
  | _, _ => .error "NameError: name job_members is not defined"

/-- The `broadcast_users` finalisation with its `except Exception` handler,
which runs `_update_broadcast_job(job_id, status="error", finished_at=...,
message=str(exc))`. -/
def broadcast_finalize (scrapeJobs : List (String × ScrapeJobRec))
    (broadcastJobs : List (String × BroadcastJobRec)) (jobId : String)
    (now : Int) : List (String × ScrapeJobRec) × List (String × BroadcastJobRec) :=
  match broadcast_finalize_try scrapeJobs jobId now with
  | .ok sj => (sj, broadcastJobs)
  | .error e => (scrapeJobs,
      update_broadcast_job broadcastJobs jobId fun j =>
        { j with status := "error", finishedAt := some now, message := some e })

/-- The record the `except` handler produces for a finished broadcast job:
status `error`, finished-at stamped, message carrying the `NameError`. -/
def broadcastErroredAt (base : BroadcastJobRec) (now : Int) : BroadcastJobRec :=
  { base with
    status := "error"
    finishedAt := some now
    message := some "NameError: name job_members is not defined" }

/-- A broadcast job still running when its recipient loop finishes. -/
def runningBroadcastJob : BroadcastJobRec :=
  { status := "running", total := 1, processed := 1, sentSuccess := 1,
    sentFailed := 0, finishedAt := none, cancelRequested := false,
    message := none }

/-- The same job with the cancellation flag observed. -/
def cancelledBroadcastJob : BroadcastJobRec :=
  { runningBroadcastJob with cancelRequested := true }

/-- A group record built from a folder peer entity
(`_build_group_record_from_entity`): native peer identity plus display
attributes. -/
structure GroupRecord where
  peer_id : Int
  peer_type : String
  access_hash : Option Int
  username : Option String
  title : String
  link : String
  deriving Repr, DecidableEq

/-- The write statements `_apply_promo_group_records_sync` issues against
the `promo_groups` catalog, by affected rowid. -/
inductive CatalogWrite where
  | updateRow (rowId : Nat)
  | insertRow (rowId : Nat)
  | disableRow (rowId : Nat)
  deriving Repr, DecidableEq

/-- The SQL `UPDATE promo_groups SET title, link, username, peer_type, access_hash,
enabled = 1 WHERE id = ?` applied to a row (`id`, `added_at`, `peer_id` and
send stats untouched). -/
def updatedFromRecord (rec : GroupRecord) (row : PromoGroup) : PromoGroup :=
  { row with
    title := some rec.title
    link := rec.link
    username := rec.username
    peerType := some rec.peer_type
    accessHash := rec.access_hash
    enabled := true }

/-- The row `INSERT INTO promo_groups(...)` creates: enabled, stamped with
`now`, NULL send stats, carrying the record's peer identity. -/
def insertedFromRecord (rec : GroupRecord) (rowId : Nat) (now : Nat) : PromoGroup :=
  { id := rowId, title := some rec.title, link := rec.link, enabled := true,
    addedAt := now, lastSentAt := none, lastStatus := none,
    peerId := some rec.peer_id, peerType := some rec.peer_type,
    accessHash := rec.access_hash, username := rec.username }

/-- The dictionary `existing_map = {row.peer_id: row.id}` over rows with a non-NULL
peer_id, computed once at entry (peer ids are unique in the table thanks to
the partial unique index `idx_promo_groups_peer`). -/
def existingPeerMap (table : List PromoGroup) : List (Int × Nat) :=
  table.filterMap fun r => r.peerId.map fun p => (p, r.id)

/-- Lookup `existing_map.get(peer_id)`. -/
def lookupPeer (m : List (Int × Nat)) (p : Int) : Option Nat :=
  (m.find? fun q => q.1 = p).map (·.2)

/-- The per-record loop of `_apply_promo_group_records_sync`, threading the
table, the issued writes, `seen_ids` and the next fresh rowid: a known peer
is updated (and re-enabled), an unknown peer is inserted with a fresh
rowid. -/
def applyRecordsLoop (pmap : List (Int × Nat)) (now : Nat) :
    List GroupRecord → List PromoGroup → List CatalogWrite → List Nat → Nat →
      List PromoGroup × List CatalogWrite × List Nat × Nat
  | [], table, writes, seen, nextId => (table, writes, seen, nextId)
  | rec :: recs, table, writes, seen, nextId =>
      match lookupPeer pmap rec.peer_id with
      | some rowId =>
          applyRecordsLoop pmap now recs
            (table.map fun r => if r.id = rowId then updatedFromRecord rec r else r)
            (writes ++ [.updateRow rowId]) (seen ++ [rowId]) nextId
      | none =>
          applyRecordsLoop pmap now recs (table ++ [insertedFromRecord rec nextId now])
            (writes ++ [.insertRow nextId]) (seen ++ [nextId]) (nextId + 1)

/-- Operation `_disable_group_ids`: set `enabled = 0` on the given rowids. -/
def disableMissing (table : List PromoGroup) (missing : List Nat) : List PromoGroup :=
  table.map fun r => if r.id ∈ missing then { r with enabled := false } else r

/-- Reconciliation `_apply_promo_group_records_sync`: run the record loop, then disable
the managed rows (values of the peer map) not seen in this pass; returns
the catalog afterwards and every write statement issued. -/
def apply_promo_group_records (table : List PromoGroup) (records : List GroupRecord)
    (nextId : Nat) (now : Nat) : List PromoGroup × List CatalogWrite :=
  (disableMissing
      (applyRecordsLoop (existingPeerMap table) now records table [] [] nextId).1
      (((existingPeerMap table).map (·.2)).filter fun i =>
        decide (i ∉ (applyRecordsLoop (existingPeerMap table) now records
          table [] [] nextId).2.2.1)),
   (applyRecordsLoop (existingPeerMap table) now records table [] [] nextId).2.1
     ++ (((existingPeerMap table).map (·.2)).filter fun i =>
        decide (i ∉ (applyRecordsLoop (existingPeerMap table) now records
          table [] [] nextId).2.2.1)).map CatalogWrite.disableRow)

/-- The table a first synchronization against an empty catalog produces:
one inserted row per record, with consecutive fresh rowids. -/
def mkRows : List GroupRecord → Nat → Nat → List PromoGroup
  | [], _, _ => []
  | r :: rs, nextId, now => insertedFromRecord r nextId now :: mkRows rs (nextId + 1) now

/-- The peer map of freshly inserted rows. -/
def peerIdxMap : List GroupRecord → Nat → List (Int × Nat)
  | [], _ => []
  | r :: rs, n => (r.peer_id, n) :: peerIdxMap rs (n + 1)

/-- A concrete folder record. -/
def groupRecA : GroupRecord :=
  { peer_id := 5, peer_type := "channel", access_hash := some 9,
    username := none, title := "G", link := "id:5" }

theorem mem_insertByAddedAt (m a : Member) (l : List Member) :
    a ∈ insertByAddedAt m l ↔ a = m ∨ a ∈ l := by
  induction l with
  | nil => simp [insertByAddedAt]
  | cons x xs ih =>
      unfold insertByAddedAt
      by_cases h : m.addedAt ≤ x.addedAt
      · rw [if_pos h]
        simp
      · rw [if_neg h]
        simp only [List.mem_cons, ih]
        tauto

theorem mem_sortByAddedAt (a : Member) (l : List Member) :
    a ∈ sortByAddedAt l ↔ a ∈ l := by
  induction l with
  | nil => simp [sortByAddedAt]
  | cons x xs ih =>
      unfold sortByAddedAt
      rw [mem_insertByAddedAt]
      simp [ih]

/-- C5, evaluation at the failing input: the eviction the claim describes
never happens.  A registry holding a `done` job whose finished-at (0)
precedes now (1000000) minus the retention duration makes
`cleanup_finished_jobs` raise `TypeError` — the aware parsed finished-at is
compared against the naive `utcnow()` cutoff — so the operation aborts and
evicts nothing; and a registry holding only a `cancelled` job (terminal per
the claim) is returned unchanged, because the scan skips every status
outside done/error. -/
theorem c5_cleanup_typeerror_never_evicts :
    doneOldJob.status = "done" ∧
    doneOldJob.finishedAt = some 0 ∧
    (0 : Int) < 1000000 - JOB_RETENTION_SECONDS ∧
    cleanup_finished_jobs [("a", doneOldJob)] 1000000
      = .error "TypeError: cannot compare offset-naive and offset-aware datetimes" ∧
    cleanup_finished_jobs [("b", cancelledOldJob)] 1000000
      = .ok [("b", cancelledOldJob)] := by
  refine ⟨rfl, rfl, by decide, rfl, rfl⟩

/-- C7: the eagerly computed recipient list contains (without a limit)
exactly the stored members with no recorded outreach timestamp that are not
flagged as HR and that match the optional source-chat filter; under any
limit every recipient still satisfies those conditions; and `send_start`
fails with an error whenever the computed list is empty, while a successful
submission returns exactly that non-empty list. -/
theorem c7_broadcast_recipients_filter (table : List Member) (filt : Option String)
    (text : String) (reqLimit : Option Nat) :
    (∀ m, m ∈ fetch_pending_broadcast_members table none filt ↔
        m ∈ table ∧ pendingBroadcastPred filt m = true) ∧
    (∀ lim m, m ∈ fetch_pending_broadcast_members table lim filt →
        m ∈ table ∧ m.lastBroadcastAt = none ∧ m.isHr = false ∧
        ∀ s, filt = some s → m.sourceChat = some s) ∧
    (fetch_pending_broadcast_members table (normalizedLimit reqLimit) filt = [] →
        ∃ e, send_start table text reqLimit filt = .error e) ∧
    (∀ l, send_start table text reqLimit filt = .ok l →
        l = fetch_pending_broadcast_members table (normalizedLimit reqLimit) filt ∧
          l ≠ []) := by
  have hrows : ∀ m, m ∈ pendingRows table filt ↔
      m ∈ table ∧ pendingBroadcastPred filt m = true := by
    intro m
    unfold pendingRows
    rw [mem_sortByAddedAt, List.mem_filter]
  have hmem : ∀ lim m, m ∈ fetch_pending_broadcast_members table lim filt →
      m ∈ table ∧ pendingBroadcastPred filt m = true := by
    intro lim m hm
    have hm' : m ∈ pendingRows table filt := by
      rcases lim with _ | n
      · exact hm
      · have hm2 : m ∈ (if 0 < n then (pendingRows table filt).take n
            else pendingRows table filt) := hm
        by_cases hn : 0 < n
        · rw [if_pos hn] at hm2
          exact List.take_subset _ _ hm2
        · rwa [if_neg hn] at hm2
    exact (hrows m).mp hm'
  refine ⟨?_, ?_, ?_, ?_⟩
  · intro m
    exact ⟨hmem none m, fun h => (hrows m).mpr h⟩
  · intro lim m hm
    obtain ⟨hmt, hpred⟩ := hmem lim m hm
    unfold pendingBroadcastPred at hpred
    simp only [Bool.and_eq_true, decide_eq_true_eq, Bool.not_eq_true'] at hpred
    obtain ⟨⟨h1, h2⟩, h3⟩ := hpred
    refine ⟨hmt, h1, h2, ?_⟩
    intro s hs
    rw [hs] at h3
    simpa using h3
  · intro hempty
    unfold send_start
    by_cases htext : text.trim = ""
    · exact ⟨"Broadcast text is required.", by rw [if_pos htext]⟩
    · refine ⟨"No recipients available for broadcast.", ?_⟩
      rw [if_neg htext]
      simp only [hempty, List.isEmpty_nil, if_pos]
  · intro l hok
    unfold send_start at hok
    by_cases htext : text.trim = ""
    · rw [if_pos htext] at hok
      exact absurd hok (by simp)
    · rw [if_neg htext] at hok
      by_cases hempty :
          (fetch_pending_broadcast_members table (normalizedLimit reqLimit) filt).isEmpty
      · rw [if_pos hempty] at hok
        exact absurd hok (by simp)
      · rw [if_neg hempty] at hok
        injection hok with hl
        refine ⟨hl.symm, ?_⟩
        rw [hl] at hempty
        simpa [List.isEmpty_iff] using hempty

theorem rowCount_append (h1 h2 : List HistoryRow) (d s : String) (g : Nat) :
    rowCount (h1 ++ h2) d s g = rowCount h1 d s g + rowCount h2 d s g := by
  unfold rowCount
  rw [List.filter_append, List.length_append]

theorem sentCount_append (h1 h2 : List HistoryRow) (d s : String) (g : Nat) :
    sentCount (h1 ++ h2) d s g = sentCount h1 d s g + sentCount h2 d s g := by
  unfold sentCount
  rw [List.filter_append, List.length_append]

theorem sentCount_le_rowCount (h : List HistoryRow) (d s : String) (g : Nat) :
    sentCount h d s g ≤ rowCount h d s g := by
  unfold sentCount rowCount
  rw [← List.countP_eq_length_filter, ← List.countP_eq_length_filter]
  apply List.countP_mono_left
  intro r _ hr
  simp only [Bool.and_eq_true, decide_eq_true_eq] at hr ⊢
  exact ⟨⟨hr.1.1.1, hr.1.1.2⟩, hr.1.2⟩

theorem rowCount_cons (r : HistoryRow) (t : List HistoryRow) (d s : String) (g : Nat) :
    rowCount (r :: t) d s g =
      (if r.dayKey = d ∧ r.slot = s ∧ r.groupId = g then 1 else 0) + rowCount t d s g := by
  unfold rowCount
  rw [List.filter_cons]
  by_cases hc : r.dayKey = d ∧ r.slot = s ∧ r.groupId = g
  · rw [if_pos (by simp [hc.1, hc.2.1, hc.2.2]), if_pos hc, List.length_cons]
    omega
  · rw [if_neg ?_, if_neg hc, Nat.zero_add]
    simp only [Bool.and_eq_true, decide_eq_true_eq]
    tauto

theorem rowCount_slotPassRows (send : PromoGroup → SendOutcome)
    (choose : Nat → PromoMessage) (d s : String) (p n : Nat)
    (gs : List PromoGroup) (idx : Nat) (g : Nat) :
    rowCount ((slotPassRows send choose d s p n gs idx).map (·.row)) d s g
      = (gs.map (·.id)).count g := by
  induction gs generalizing idx with
  | nil => simp [slotPassRows, rowCount]
  | cons x xs ih =>
      unfold slotPassRows
      rw [List.map_cons, rowCount_cons, ih (idx + 1), List.map_cons, List.count_cons]
      by_cases hx : x.id = g
      · rw [if_pos ⟨rfl, rfl, hx⟩, if_pos (by simp [hx])]
        omega
      · rw [if_neg (fun hcon => hx hcon.2.2), if_neg (by simp [hx])]
        omega

theorem mem_fetch_slot_done_groups (h : List HistoryRow) (d s : String) (gid : Nat) :
    gid ∈ fetch_slot_done_groups h d s ↔ rowCount h d s gid ≠ 0 := by
  unfold fetch_slot_done_groups
  rw [List.mem_map]
  constructor
  · rintro ⟨r, hr, rfl⟩
    rw [List.mem_filter] at hr
    have hcond := hr.2
    simp only [Bool.and_eq_true, decide_eq_true_eq] at hcond
    intro hlen
    unfold rowCount at hlen
    rw [List.length_eq_zero, List.filter_eq_nil_iff] at hlen
    exact hlen r hr.1 (by simp [hcond.1, hcond.2])
  · intro hlen
    have hne : (h.filter fun r => r.dayKey = d && r.slot = s &&
        decide (r.groupId = gid)) ≠ [] := by
      intro hnil
      apply hlen
      unfold rowCount
      rw [hnil]
      rfl
    obtain ⟨r, hr⟩ := List.exists_mem_of_ne_nil _ hne
    rw [List.mem_filter] at hr
    have hcond := hr.2
    simp only [Bool.and_eq_true, decide_eq_true_eq] at hcond
    refine ⟨r, ?_, hcond.2⟩
    rw [List.mem_filter]
    simp [hr.1, hcond.1.1, hcond.1.2]

theorem mem_get_pending_groups (slot dayKey : String) (groups : List PromoGroup)
    (h : List HistoryRow) (g : PromoGroup) :
    g ∈ get_pending_groups slot dayKey groups h ↔
      g ∈ groups ∧ rowCount h dayKey slot g.id = 0 := by
  unfold get_pending_groups
  rw [List.mem_filter]
  simp only [decide_eq_true_eq]
  rw [mem_fetch_slot_done_groups]
  tauto

theorem pending_ids_nodup (slot dayKey : String) (groupsTable : List PromoGroup)
    (h : List HistoryRow) (hnd : (groupsTable.map (·.id)).Nodup) :
    ((get_pending_groups slot dayKey (activePromoGroups groupsTable) h).map (·.id)).Nodup := by
  have hsub : (get_pending_groups slot dayKey (activePromoGroups groupsTable) h).Sublist
      groupsTable :=
    ((List.filter_sublist _).trans (List.filter_sublist _))
  exact hnd.sublist (hsub.map _)

/-- Single-pass bound: one invocation of `_run_promo_slot` never raises the
number of `sent` rows for a (day-key, slot, group) triple above
`max (previous count) 1`, because only groups with no existing row are
attempted and each pending group is attempted exactly once. -/
theorem sentCount_run_promo_slot_le (paused : Bool) (groupsTable : List PromoGroup)
    (messagesTable : List PromoMessage) (history : List HistoryRow)
    (d s : String) (p n : Nat) (send : PromoGroup → SendOutcome)
    (choose : Nat → PromoMessage) (hnd : (groupsTable.map (·.id)).Nodup) (g : Nat) :
    sentCount (run_promo_slot paused groupsTable messagesTable history d s p n
      send choose).history d s g ≤ max (sentCount history d s g) 1 := by
  unfold run_promo_slot
  split_ifs with h1 h2 h3 h4
  · exact le_max_left _ _
  · exact le_max_left _ _
  · exact le_max_left _ _
  · exact le_max_left _ _
  · rw [sentCount_append]
    have hb : sentCount ((slotPassRows send choose d s p n
        (get_pending_groups s d (activePromoGroups groupsTable) history) 0).map (·.row))
          d s g ≤ ((get_pending_groups s d (activePromoGroups groupsTable) history).map
            (·.id)).count g :=
      le_trans (sentCount_le_rowCount _ _ _ _)
        (le_of_eq (rowCount_slotPassRows send choose d s p n _ 0 g))
    by_cases hrow : rowCount history d s g = 0
    · have hsent0 : sentCount history d s g = 0 :=
        Nat.le_zero.mp (hrow ▸ sentCount_le_rowCount history d s g)
      have hcount1 : ((get_pending_groups s d (activePromoGroups groupsTable) history).map
          (·.id)).count g ≤ 1 :=
        List.nodup_iff_count_le_one.mp (pending_ids_nodup s d groupsTable history hnd) g
      calc sentCount history d s g + sentCount _ d s g
          ≤ 0 + 1 := by rw [hsent0]; exact Nat.add_le_add_left (le_trans hb hcount1) 0
        _ ≤ max (sentCount history d s g) 1 := by simp
    · have hgnot : g ∉ (get_pending_groups s d (activePromoGroups groupsTable) history).map
          (·.id) := by
        rw [List.mem_map]
        rintro ⟨gp, hgp, rfl⟩
        exact hrow ((mem_get_pending_groups s d _ history gp).mp hgp).2
      have hcount0 : ((get_pending_groups s d (activePromoGroups groupsTable) history).map
          (·.id)).count g = 0 := List.count_eq_zero.mpr hgnot
      have : sentCount ((slotPassRows send choose d s p n
          (get_pending_groups s d (activePromoGroups groupsTable) history) 0).map (·.row))
            d s g = 0 := Nat.le_zero.mp (hcount0 ▸ hb)
      rw [this]
      simp

/-- C4: a run of the due-slot dispatch only attempts targets with no
existing history row for (day-key, slot), and replaying the dispatch for
the same day and slot never pushes the number of `sent` rows for any
(day-key, slot, group) triple above one (above the previous count when the
initial history already held such rows). -/
theorem c4_at_most_one_sent_row (paused paused2 : Bool)
    (groupsTable : List PromoGroup) (messagesTable : List PromoMessage)
    (history : List HistoryRow) (d s : String) (p n p2 n2 : Nat)
    (send send2 : PromoGroup → SendOutcome) (choose choose2 : Nat → PromoMessage)
    (hnd : (groupsTable.map (·.id)).Nodup) (g : Nat) :
    (∀ gp ∈ get_pending_groups s d (activePromoGroups groupsTable) history,
        rowCount history d s gp.id = 0) ∧
    sentCount (run_promo_slot paused2 groupsTable messagesTable
        (run_promo_slot paused groupsTable messagesTable history d s p n
          send choose).history d s p2 n2 send2 choose2).history d s g
      ≤ max (sentCount history d s g) 1 := by
  constructor
  · intro gp hgp
    exact ((mem_get_pending_groups s d _ history gp).mp hgp).2
  · have h2 := sentCount_run_promo_slot_le paused2 groupsTable messagesTable
      (run_promo_slot paused groupsTable messagesTable history d s p n
        send choose).history d s p2 n2 send2 choose2 hnd g
    have h1 := sentCount_run_promo_slot_le paused groupsTable messagesTable
      history d s p n send choose hnd g
    calc sentCount (run_promo_slot paused2 groupsTable messagesTable
          (run_promo_slot paused groupsTable messagesTable history d s p n
            send choose).history d s p2 n2 send2 choose2).history d s g
        ≤ max (sentCount (run_promo_slot paused groupsTable messagesTable history
            d s p n send choose).history d s g) 1 := h2
      _ ≤ max (max (sentCount history d s g) 1) 1 := by
          exact max_le_max_right 1 h1
      _ = max (sentCount history d s g) 1 := by
          rw [max_assoc, max_self]

theorem attempt_mem_slotPassRows (send : PromoGroup → SendOutcome)
    (choose : Nat → PromoMessage) (d s : String) (p n : Nat)
    (gs : List PromoGroup) (g : PromoGroup) (hg : g ∈ gs) (idx0 : Nat) :
    ∃ idx, attemptGroup send choose d s p n idx g ∈
      slotPassRows send choose d s p n gs idx0 := by
  induction gs generalizing idx0 with
  | nil => cases hg
  | cons x xs ih =>
      unfold slotPassRows
      rcases List.mem_cons.mp hg with rfl | hx
      · exact ⟨idx0, List.mem_cons_self _ _⟩
      · obtain ⟨idx, hidx⟩ := ih hx (idx0 + 1)
        exact ⟨idx, List.mem_cons_of_mem _ hidx⟩

/-- C3, counterexample: with one pending group whose send raises
`FloodWaitError(300)`, the engine sleeps `min(300+1, 120) = 120 < 300`
seconds (not the mandated 300), records the target as `failed` with a
flood-wait detail, and the target is no longer pending for that
(day-key, slot) on the next wake — refuting both the "sleeps at least the
mandated wait" and the "remains pending, retried on the next wake" parts
of the claim. -/
theorem c3_floodwait_counterexample :
    (run_promo_slot false [promoGroupX] [promoMsgA] [] "2025-06-01" "morning" 0 100
        floodSend300 chooseMsgA).floodSleeps = [120] ∧
    (120 : Nat) < 300 ∧
    (run_promo_slot false [promoGroupX] [promoMsgA] [] "2025-06-01" "morning" 0 100
        floodSend300 chooseMsgA).history.map (fun r => (r.groupId, r.status, r.details))
      = [(1, "failed", some "flood_wait:300")] ∧
    get_pending_groups "morning" "2025-06-01" (activePromoGroups [promoGroupX])
      (run_promo_slot false [promoGroupX] [promoMsgA] [] "2025-06-01" "morning" 0 100
        floodSend300 chooseMsgA).history = [] := by
  refine ⟨rfl, by decide, rfl, rfl⟩

/-- C3, amended: when the send to a pending target raises a rate-limit
signal with mandated wait `w`, the engine sleeps `min(w + 1, 120)` seconds
(which is below the mandated wait whenever `w > 119`), records a `failed`
history row with a `flood_wait` detail for that (day-key, slot, target),
and the target is consequently no longer pending for that (day-key, slot) —
it is not retried on a later wake that day. -/
theorem c3_floodwait_failed_and_not_retried (groupsTable : List PromoGroup)
    (messagesTable : List PromoMessage) (history : List HistoryRow)
    (d s : String) (p n : Nat) (send : PromoGroup → SendOutcome)
    (choose : Nat → PromoMessage) (g : PromoGroup) (w : Nat)
    (hg : g ∈ get_pending_groups s d (activePromoGroups groupsTable) history)
    (hmsg : (activePromoMessages messagesTable).isEmpty = false)
    (hsend : send g = .floodWait w)
    (hpeer : groupHasSendablePeer g = true) :
    min (w + 1) 120 ∈ (run_promo_slot false groupsTable messagesTable history d s p n
        send choose).floodSleeps ∧
    (∃ row ∈ (run_promo_slot false groupsTable messagesTable history d s p n
        send choose).history, row.dayKey = d ∧ row.slot = s ∧ row.groupId = g.id ∧
        row.status = "failed" ∧ row.details = some ("flood_wait:" ++ toString w)) ∧
    ∀ g2 ∈ get_pending_groups s d (activePromoGroups groupsTable)
        (run_promo_slot false groupsTable messagesTable history d s p n
          send choose).history, g2.id ≠ g.id := by
  have hganda := (mem_get_pending_groups s d (activePromoGroups groupsTable) history g).mp hg
  have hact : ¬ (activePromoGroups groupsTable).isEmpty = true := by
    rw [List.isEmpty_iff]
    exact List.ne_nil_of_mem hganda.1
  have hmsg' : ¬ (activePromoMessages messagesTable).isEmpty = true := by
    rw [hmsg]
    simp
  have hpend : ¬ (get_pending_groups s d (activePromoGroups groupsTable)
      history).isEmpty = true := by
    rw [List.isEmpty_iff]
    exact List.ne_nil_of_mem hg
  have hrun : run_promo_slot false groupsTable messagesTable history d s p n send choose
      = { completed := true,
          history := history ++ (slotPassRows send choose d s p n
            (get_pending_groups s d (activePromoGroups groupsTable) history) 0).map (·.row),
          attempts := ((slotPassRows send choose d s p n
            (get_pending_groups s d (activePromoGroups groupsTable) history) 0).filter
              (·.sendAttempted)).map (·.row.groupId),
          floodSleeps := (slotPassRows send choose d s p n
            (get_pending_groups s d (activePromoGroups groupsTable) history) 0).filterMap
              (·.floodSleep),
          statWrites := (slotPassRows send choose d s p n
            (get_pending_groups s d (activePromoGroups groupsTable) history) 0).map
              (·.stat) } := by
    unfold run_promo_slot
    rw [if_neg (by simp), if_neg hact, if_neg hmsg', if_neg hpend]
  have hsg : sendToGroup send g = floodWaitResult w := by
    unfold sendToGroup
    rw [if_pos hpeer, hsend]
    rfl
  obtain ⟨idx, hidx⟩ := attempt_mem_slotPassRows send choose d s p n
    (get_pending_groups s d (activePromoGroups groupsTable) history) g hg 0
  have hrowmem : (attemptGroup send choose d s p n idx g).row ∈
      (run_promo_slot false groupsTable messagesTable history d s p n
        send choose).history := by
    rw [hrun]
    exact List.mem_append_right _ (List.mem_map_of_mem _ hidx)
  refine ⟨?_, ?_, ?_⟩
  · rw [hrun]
    exact List.mem_filterMap.mpr ⟨attemptGroup send choose d s p n idx g, hidx,
      by simp [attemptGroup, hsg, floodWaitResult]⟩
  · refine ⟨(attemptGroup send choose d s p n idx g).row, hrowmem, rfl, rfl, rfl, ?_, ?_⟩
    · show (sendToGroup send g).status = "failed"
      rw [hsg]
      rfl
    · show (sendToGroup send g).details = some ("flood_wait:" ++ toString w)
      rw [hsg]
      rfl
  · intro g2 hg2 heq
    have h0 := ((mem_get_pending_groups s d (activePromoGroups groupsTable) _ g2).mp hg2).2
    have hin : g.id ∈ fetch_slot_done_groups
        (run_promo_slot false groupsTable messagesTable history d s p n send choose).history
        d s := by
      unfold fetch_slot_done_groups
      refine List.mem_map.mpr ⟨(attemptGroup send choose d s p n idx g).row, ?_, rfl⟩
      rw [List.mem_filter]
      exact ⟨hrowmem, by simp [attemptGroup]⟩
    have hne := (mem_fetch_slot_done_groups _ d s g.id).mp hin
    rw [heq] at h0
    exact hne h0

/-- C3, witness for the amended theorem: applying it to the one-group
configuration with a mandated wait of 30 seconds shows the 31-second sleep,
the failed history row, and the exclusion from the next pending set. -/
theorem c3_floodwait_failed_and_not_retried_witness :
    min (30 + 1) 120 ∈ (run_promo_slot false [promoGroupX] [promoMsgA] []
        "2025-06-02" "noon" 0 100 (fun _ => .floodWait 30) chooseMsgA).floodSleeps ∧
    (∃ row ∈ (run_promo_slot false [promoGroupX] [promoMsgA] []
        "2025-06-02" "noon" 0 100 (fun _ => .floodWait 30) chooseMsgA).history,
      row.dayKey = "2025-06-02" ∧ row.slot = "noon" ∧ row.groupId = promoGroupX.id ∧
      row.status = "failed" ∧ row.details = some ("flood_wait:" ++ toString 30)) ∧
    ∀ g2 ∈ get_pending_groups "noon" "2025-06-02" (activePromoGroups [promoGroupX])
        (run_promo_slot false [promoGroupX] [promoMsgA] [] "2025-06-02" "noon" 0 100
          (fun _ => .floodWait 30) chooseMsgA).history, g2.id ≠ promoGroupX.id :=
  c3_floodwait_failed_and_not_retried [promoGroupX] [promoMsgA] [] "2025-06-02" "noon"
    0 100 (fun _ => .floodWait 30) chooseMsgA promoGroupX 30 (by decide) (by decide)
    rfl (by decide)

/-- C4, witness: the double-run bound instantiated on the one-group,
one-message configuration with an always-successful send oracle. -/
theorem c4_at_most_one_sent_row_witness :
    ([promoGroupX].map (·.id)).Nodup ∧
    ((∀ gp ∈ get_pending_groups "morning" "2025-06-01" (activePromoGroups [promoGroupX])
        ([] : List HistoryRow), rowCount [] "2025-06-01" "morning" gp.id = 0) ∧
      sentCount (run_promo_slot false [promoGroupX] [promoMsgA]
          (run_promo_slot false [promoGroupX] [promoMsgA] [] "2025-06-01" "morning"
            0 100 sendAlwaysOk chooseMsgA).history
          "2025-06-01" "morning" 0 200 sendAlwaysOk chooseMsgA).history
        "2025-06-01" "morning" 1 ≤ max (sentCount [] "2025-06-01" "morning" 1) 1) :=
  ⟨by decide, c4_at_most_one_sent_row false false [promoGroupX] [promoMsgA] []
    "2025-06-01" "morning" 0 100 0 200 sendAlwaysOk sendAlwaysOk chooseMsgA chooseMsgA
    (by decide) 1⟩

theorem promo_no_resume_invariant (es : List PromoEvent) :
    ∀ st : PromoState, st.paused = true →
      es.all (fun e => ! e.isResume) = true →
      (es.foldl promoStep st).paused = true ∧
        (es.foldl promoStep st).attempts = st.attempts ∧
        (es.foldl promoStep st).history = st.history := by
  induction es with
  | nil => exact fun st hp _ => ⟨hp, rfl, rfl⟩
  | cons e es ih =>
      intro st hp hall
      rw [List.all_cons, Bool.and_eq_true] at hall
      have hstep : (promoStep st e).paused = true ∧
          (promoStep st e).attempts = st.attempts ∧
          (promoStep st e).history = st.history := by
        cases e with
        | startup => exact ⟨rfl, rfl, rfl⟩
        | pauseCmd => exact ⟨rfl, rfl, rfl⟩
        | resumeCmd => exact absurd hall.1 (by simp [PromoEvent.isResume])
        | wake gt mt d s p n send choose =>
            unfold promoStep
            rw [hp]
            exact ⟨rfl, List.append_nil _, rfl⟩
      rw [List.foldl_cons]
      obtain ⟨h1, h2, h3⟩ := ih (promoStep st e) hstep.1 hall.2
      exact ⟨h1, h2.trans hstep.2.1, h3.trans hstep.2.2⟩

/-- C9: the startup handler always sets the pause flag, and along any event
trace with no explicit resume after a startup the flag stays set and no
due-slot dispatch issues a single send call (the attempt log is unchanged),
so the system never auto-resumes mass sending after a restart. -/
theorem c9_paused_after_startup_until_resume (st0 : PromoState)
    (es : List PromoEvent) (hall : es.all (fun e => ! e.isResume) = true) :
    (promoStep st0 .startup).paused = true ∧
    (es.foldl promoStep (promoStep st0 .startup)).paused = true ∧
    (es.foldl promoStep (promoStep st0 .startup)).attempts = st0.attempts := by
  obtain ⟨h1, h2, _⟩ := promo_no_resume_invariant es (promoStep st0 .startup) rfl hall
  exact ⟨rfl, h1, h2⟩

/-- C9, witness: a concrete post-startup trace containing pauses and two
scheduler wakes (with an always-succeeding send oracle and a due slot with
a pending target) issues no send call. -/
theorem c9_paused_after_startup_until_resume_witness :
    (promoStep ⟨false, [], []⟩ .startup).paused = true ∧
    ([PromoEvent.pauseCmd,
      PromoEvent.wake [promoGroupX] [promoMsgA] "2025-06-01" "morning" 0 50
        sendAlwaysOk chooseMsgA,
      PromoEvent.startup,
      PromoEvent.wake [promoGroupX] [promoMsgA] "2025-06-01" "noon" 0 60
        sendAlwaysOk chooseMsgA].foldl promoStep
        (promoStep ⟨false, [], []⟩ .startup)).paused = true ∧
    ([PromoEvent.pauseCmd,
      PromoEvent.wake [promoGroupX] [promoMsgA] "2025-06-01" "morning" 0 50
        sendAlwaysOk chooseMsgA,
      PromoEvent.startup,
      PromoEvent.wake [promoGroupX] [promoMsgA] "2025-06-01" "noon" 0 60
        sendAlwaysOk chooseMsgA].foldl promoStep
        (promoStep ⟨false, [], []⟩ .startup)).attempts = ([] : List Nat) :=
  c9_paused_after_startup_until_resume ⟨false, [], []⟩ _ rfl

theorem find?_update_first {α : Type} (P : α → Prop) [DecidablePred P] (v : α)
    (hv : P v) (l : List α) :
    (l.map fun a => if P a then v else a).find? (fun a => decide (P a))
      = (l.find? (fun a => decide (P a))).map (fun _ => v) := by
  induction l with
  | nil => rfl
  | cons x xs ih =>
      by_cases hx : P x
      · rw [List.map_cons, if_pos hx, List.find?_cons_of_pos _ (by simp [hv]),
          List.find?_cons_of_pos _ (by simp [hx])]
        rfl
      · rw [List.map_cons, if_neg hx, List.find?_cons_of_neg _ (by simp [hx]),
          List.find?_cons_of_neg _ (by simp [hx]), ih]

theorem find?_update_other {α : Type} (P Q : α → Prop) [DecidablePred P]
    [DecidablePred Q] (v : α) (hv : ¬ Q v) (hPQ : ∀ a, Q a → ¬ P a) (l : List α) :
    (l.map fun a => if P a then v else a).find? (fun a => decide (Q a))
      = l.find? (fun a => decide (Q a)) := by
  induction l with
  | nil => rfl
  | cons x xs ih =>
      by_cases hqx : Q x
      · rw [List.map_cons, if_neg (hPQ x hqx), List.find?_cons_of_pos _ (by simp [hqx]),
          List.find?_cons_of_pos _ (by simp [hqx])]
      · by_cases hpx : P x
        · rw [List.map_cons, if_pos hpx, List.find?_cons_of_neg _ (by simp [hv]),
            List.find?_cons_of_neg _ (by simp [hqx]), ih]
        · rw [List.map_cons, if_neg hpx, List.find?_cons_of_neg _ (by simp [hqx]),
            List.find?_cons_of_neg _ (by simp [hqx]), ih]

theorem lookupCache_setCache (c : List (String × String)) (slot day : String) :
    lookupCache (setCache c slot day) slot = some day := by
  unfold setCache lookupCache
  by_cases hf : (c.find? fun p => p.1 = slot).isSome
  · rw [if_pos hf, find?_update_first (fun p => p.1 = slot) (slot, day) rfl c]
    obtain ⟨p, hp⟩ := Option.isSome_iff_exists.mp hf
    rw [hp]
    rfl
  · rw [if_neg hf]
    have hfn : (c.find? fun p => p.1 = slot) = none := by
      rcases h : (c.find? fun p => p.1 = slot) with _ | v
      · exact h
      · rw [h] at hf
        simp at hf
    rw [List.find?_append, hfn]
    simp

/-- C6, counterexample: with the default schedule, an empty cache and the
wake at 14:00 (840 minutes), the `morning` slot is past its whole window
(next start 13:00 = 780 ≤ 840) and was never completed, yet the iteration
does NOT dispatch it and marks it complete for the day — refuting the
claimed catch-up dispatch. -/
theorem c6_missed_slot_skipped_counterexample :
    (∃ e ∈ build_schedule_plan_for_day defaultScheduleRows,
        e.slot = "morning" ∧ e.localStart = 540 ∧ e.nextStart = 780 ∧
          e.nextStart ≤ 840) ∧
    "morning" ∉ (promo_scheduler_iteration "2025-06-01" 840 (fun _ => true) []
        defaultScheduleRows).dispatched ∧
    lookupCache (promo_scheduler_iteration "2025-06-01" 840 (fun _ => true) []
        defaultScheduleRows).cache "morning" = some "2025-06-01" := by
  refine ⟨by decide, by decide, by decide⟩

/-- C6, amended: on a wake where a slot is not cached as completed for
today and the time is at or after the slot's window end, the per-slot
decision marks the slot complete for today's day-key without invoking the
dispatch (its slot is not appended to the dispatched list). -/
theorem c6_past_window_skipped_and_marked (day : String) (nowMin : Int)
    (completes : String → Bool) (acc : IterAcc) (e : PlanEntry)
    (hnc : lookupCache acc.cache e.slot ≠ some day)
    (hstart : e.localStart ≤ nowMin) (hend : e.nextStart ≤ nowMin) :
    (promo_iteration_step day nowMin completes acc e).dispatched = acc.dispatched ∧
    lookupCache (promo_iteration_step day nowMin completes acc e).cache e.slot
      = some day := by
  unfold promo_iteration_step
  rw [if_neg hnc, if_neg (not_lt.mpr hstart), if_pos hend]
  exact ⟨rfl, lookupCache_setCache _ _ _⟩

/-- C6, witness for the amended theorem: the concrete 14:00 wake applied to
the default morning entry. -/
theorem c6_past_window_skipped_and_marked_witness :
    (promo_iteration_step "2025-06-01" 840 (fun _ => true)
        { cache := [], dispatched := [] }
        { slot := "morning", hour := 9, minute := 0, localStart := 540,
          nextStart := 780 }).dispatched = [] ∧
    lookupCache (promo_iteration_step "2025-06-01" 840 (fun _ => true)
        { cache := [], dispatched := [] }
        { slot := "morning", hour := 9, minute := 0, localStart := 540,
          nextStart := 780 }).cache "morning" = some "2025-06-01" :=
  c6_past_window_skipped_and_marked "2025-06-01" 840 (fun _ => true)
    { cache := [], dispatched := [] }
    { slot := "morning", hour := 9, minute := 0, localStart := 540, nextStart := 780 }
    (by decide) (by decide) (by decide)

theorem scheduleLookup_upsert (sched : List ScheduleRow) (slot : String)
    (hour minute : Int) (s2 : String) :
    scheduleLookup (update_promo_schedule_entry sched slot hour minute) s2
      = if s2 = slot then some (hour, minute) else scheduleLookup sched s2 := by
  unfold update_promo_schedule_entry scheduleLookup
  by_cases hf : (sched.find? fun r => r.slot = slot).isSome
  · rw [if_pos hf]
    by_cases h2 : s2 = slot
    · subst h2
      rw [if_pos rfl, find?_update_first (fun r => r.slot = s2)
        { slot := s2, hour := hour, minute := minute } rfl sched]
      obtain ⟨r, hr⟩ := Option.isSome_iff_exists.mp hf
      rw [hr]
      rfl
    · rw [if_neg h2, find?_update_other (fun r => r.slot = slot)
        (fun r => r.slot = s2) { slot := slot, hour := hour, minute := minute }
        (fun hc => h2 (Eq.symm hc)) (fun a ha hp => h2 (ha.symm.trans hp)) sched]
  · rw [if_neg hf]
    have hfn : (sched.find? fun r => r.slot = slot) = none := by
      rcases h : (sched.find? fun r => r.slot = slot) with _ | v
      · exact h
      · rw [h] at hf
        simp at hf
    rw [List.find?_append]
    by_cases h2 : s2 = slot
    · subst h2
      rw [if_pos rfl, hfn]
      simp
    · rw [if_neg h2]
      rcases hfind : (sched.find? fun r => r.slot = s2) with _ | r
      · simp [Ne.symm h2, h2]
      · simp [hfind]

/-- C10: the schedule-update endpoint rejects exactly the requests whose
slot is not one of the three known slots or whose hour/minute fall outside
0–23 / 0–59, leaving the stored schedule unchanged; a valid request upserts
exactly the (slot, hour, minute) row, leaving every other slot's entry
unchanged. -/
theorem c10_schedule_update_validation (sched : List ScheduleRow) (slot : String)
    (hour minute : Int) :
    ((update_promo_schedule sched slot hour minute).1.isSome ↔
      ¬ (slot ∈ PROMO_SLOTS ∧ 0 ≤ hour ∧ hour ≤ 23 ∧ 0 ≤ minute ∧ minute ≤ 59)) ∧
    ((update_promo_schedule sched slot hour minute).1.isSome →
      (update_promo_schedule sched slot hour minute).2 = sched) ∧
    ((update_promo_schedule sched slot hour minute).1 = none →
      ∀ s2, scheduleLookup (update_promo_schedule sched slot hour minute).2 s2 =
        if s2 = slot then some (hour, minute) else scheduleLookup sched s2) := by
  unfold update_promo_schedule
  by_cases hslot : slot ∉ PROMO_SLOTS
  · rw [if_pos hslot]
    refine ⟨by simp [hslot], fun _ => rfl, fun hnone => absurd hnone (by simp)⟩
  · rw [if_neg hslot]
    rw [not_not] at hslot
    by_cases htime : hour < 0 ∨ 23 < hour ∨ minute < 0 ∨ 59 < minute
    · rw [if_pos htime]
      refine ⟨by simp [hslot]; omega, fun _ => rfl, fun hnone => absurd hnone (by simp)⟩
    · rw [if_neg htime]
      refine ⟨by simp [hslot]; omega, by simp, fun _ s2 => scheduleLookup_upsert _ _ _ _ _⟩

/-- C10, witness: a valid update of `morning` to 08:30 stores exactly that
row, and an out-of-range hour is rejected leaving the schedule unchanged. -/
theorem c10_schedule_update_validation_witness :
    ((update_promo_schedule defaultScheduleRows "morning" 8 30).1 = none ∧
      scheduleLookup (update_promo_schedule defaultScheduleRows "morning" 8 30).2
        "morning" = some (8, 30) ∧
      scheduleLookup (update_promo_schedule defaultScheduleRows "morning" 8 30).2
        "noon" = some (13, 0)) ∧
    ((update_promo_schedule defaultScheduleRows "noon" 24 0).1.isSome = true ∧
      (update_promo_schedule defaultScheduleRows "noon" 24 0).2
        = defaultScheduleRows) := by
  constructor
  · refine ⟨by decide, ?_, ?_⟩
    · have h := (c10_schedule_update_validation defaultScheduleRows
        "morning" 8 30).2.2 (by decide) "morning"
      rw [h]
      decide
    · have h := (c10_schedule_update_validation defaultScheduleRows
        "morning" 8 30).2.2 (by decide) "noon"
      rw [h]
      decide
  · refine ⟨(c10_schedule_update_validation defaultScheduleRows "noon" 24 0).1.mpr
      (by decide), (c10_schedule_update_validation defaultScheduleRows
        "noon" 24 0).2.1 ((c10_schedule_update_validation defaultScheduleRows
          "noon" 24 0).1.mpr (by decide))⟩

theorem scrape_loop_processed_on_cancel (k : Nat) (us : List Nat) :
    ∀ (i : Nat) (existing collected : List Nat), i ≤ k → k < i + us.length →
      (scrape_loop (some k) us i existing collected).1 = k + 1 := by
  induction us with
  | nil =>
      intro i existing collected hik hlen
      simp at hlen
      omega
  | cons u us ih =>
      intro i existing collected hik hlen
      unfold scrape_loop
      by_cases hc : cancelObservedAt (some k) i = true
      · rw [if_pos hc]
        unfold cancelObservedAt at hc
        rw [decide_eq_true_eq] at hc
        have : i = k := Nat.le_antisymm hik hc
        rw [this]
      · rw [if_neg hc]
        unfold cancelObservedAt at hc
        rw [decide_eq_true_eq] at hc
        have hik' : i + 1 ≤ k := by omega
        have hlen' : k < (i + 1) + us.length := by
          rw [List.length_cons] at hlen
          omega
        by_cases hu : u ∈ existing
        · rw [if_pos hu]
          exact ih (i + 1) existing collected hik' hlen'
        · rw [if_neg hu]
          exact ih (i + 1) (existing ++ [u]) (collected ++ [u]) hik' hlen'

theorem scrape_loop_collected_in_store (cancelAt : Option Nat) (us : List Nat) :
    ∀ (i : Nat) (existing collected : List Nat),
      (∀ x ∈ collected, x ∈ existing) →
      ∀ x ∈ (scrape_loop cancelAt us i existing collected).2.2,
        x ∈ (scrape_loop cancelAt us i existing collected).2.1 := by
  induction us with
  | nil => exact fun i existing collected hinv => hinv
  | cons u us ih =>
      intro i existing collected hinv
      unfold scrape_loop
      by_cases hc : cancelObservedAt cancelAt i = true
      · rw [if_pos hc]
        exact hinv
      · rw [if_neg hc]
        by_cases hu : u ∈ existing
        · rw [if_pos hu]
          exact ih (i + 1) existing collected hinv
        · rw [if_neg hu]
          refine ih (i + 1) (existing ++ [u]) (collected ++ [u]) ?_
          intro x hx
          rcases List.mem_append.mp hx with hx | hx
          · exact List.mem_append_left _ (hinv x hx)
          · exact List.mem_append_right _ hx

/-- C2, counterexample: a collection of two members cancelled at the second
check stops within one iteration step (processed = 2) and persists the item
collected before cancellation, but finalizes the job with status `done`,
not `cancelled` — refuting the claimed `cancelled` final status. -/
theorem c2_cancel_finalized_done_counterexample :
    (scrape_users [] [100, 200] (some 1)).status = "done" ∧
    "done" ≠ "cancelled" ∧
    (scrape_users [] [100, 200] (some 1)).processed = 2 ∧
    (scrape_users [] [100, 200] (some 1)).collected = [100] ∧
    (scrape_users [] [100, 200] (some 1)).store = [100] := by
  refine ⟨rfl, by decide, rfl, rfl, rfl⟩

/-- C2, amended: when the cancellation flag is set during member iteration
(observable from check `k`, before the list is exhausted), the engine stops
within one iteration step (`processed = k + 1`), every item collected
before the cancellation is already present in the persistent store, and the
job is finalized — with a finished-at timestamp — but with status `done`
(the cancellation break reuses the normal completion path), not
`cancelled`. -/
theorem c2_cancel_stops_and_persists (existing users : List Nat) (k : Nat)
    (hk : k < users.length) :
    (scrape_users existing users (some k)).status = "done" ∧
    (scrape_users existing users (some k)).processed = k + 1 ∧
    (scrape_users existing users (some k)).finishedAtSet = true ∧
    ∀ x ∈ (scrape_users existing users (some k)).collected,
      x ∈ (scrape_users existing users (some k)).store := by
  refine ⟨rfl, ?_, rfl, ?_⟩
  · exact scrape_loop_processed_on_cancel k users 0 existing []
      (Nat.zero_le k) (by omega)
  · exact scrape_loop_collected_in_store (some k) users 0 existing []
      (fun x hx => absurd hx (List.not_mem_nil x))

/-- C2, witness for the amended theorem: the two-member run cancelled at
the second check. -/
theorem c2_cancel_stops_and_persists_witness :
    (scrape_users [7] [7, 100, 200] (some 2)).status = "done" ∧
    (scrape_users [7] [7, 100, 200] (some 2)).processed = 3 ∧
    (scrape_users [7] [7, 100, 200] (some 2)).finishedAtSet = true ∧
    ∀ x ∈ (scrape_users [7] [7, 100, 200] (some 2)).collected,
      x ∈ (scrape_users [7] [7, 100, 200] (some 2)).store :=
  c2_cancel_stops_and_persists [7] [7, 100, 200] 2 (by decide)

/-- C1, evaluation at the failing input: finishing any broadcast job — with
or without the cancellation flag set — finalizes its record with status
`error` (message `NameError: ...`), never `done` or `cancelled`: the final
update references `job_members`/`processed_total`, which are undefined in
`broadcast_users`, so the `try` always raises and the `except` branch marks
the job `error` (the non-exception path would in any case write to
`SCRAPE_JOBS` via `_update_job`, not to the broadcast record). -/
theorem c1_broadcast_finalize_marks_error :
    lookupBroadcastJob (broadcast_finalize [] [("job-1", runningBroadcastJob)]
        "job-1" 1000).2 "job-1"
      = some (broadcastErroredAt runningBroadcastJob 1000) ∧
    lookupBroadcastJob (broadcast_finalize [] [("job-2", cancelledBroadcastJob)]
        "job-2" 1000).2 "job-2"
      = some (broadcastErroredAt cancelledBroadcastJob 1000) ∧
    (∀ p ∈ (broadcast_finalize [] [("job-1", runningBroadcastJob)] "job-1" 1000).2,
      p.2.status ≠ "done" ∧ p.2.status ≠ "cancelled") ∧
    (∀ p ∈ (broadcast_finalize [] [("job-2", cancelledBroadcastJob)] "job-2" 1000).2,
      p.2.status ≠ "done" ∧ p.2.status ≠ "cancelled") := by
  refine ⟨by decide, by decide, by decide, by decide⟩

theorem disableMissing_nil (t : List PromoGroup) : disableMissing t [] = t := by
  unfold disableMissing
  simp

theorem applyRecordsLoop_empty_map (now : Nat) (recs : List GroupRecord) :
    ∀ (table : List PromoGroup) (writes : List CatalogWrite) (seen : List Nat)
      (nextId : Nat),
      applyRecordsLoop [] now recs table writes seen nextId
        = (table ++ mkRows recs nextId now,
           writes ++ (List.range' nextId recs.length).map CatalogWrite.insertRow,
           seen ++ List.range' nextId recs.length, nextId + recs.length) := by
  induction recs with
  | nil =>
      intro table writes seen nextId
      simp [applyRecordsLoop, mkRows]
  | cons r rs ih =>
      intro table writes seen nextId
      unfold applyRecordsLoop
      have hlk : lookupPeer [] r.peer_id = none := rfl
      rw [hlk, ih]
      have hmk : mkRows (r :: rs) nextId now
          = insertedFromRecord r nextId now :: mkRows rs (nextId + 1) now := rfl
      rw [hmk, List.length_cons, List.range'_succ, List.map_cons]
      rw [List.append_assoc, List.append_assoc, List.append_assoc]
      simp only [List.singleton_append]
      have hn : nextId + 1 + rs.length = nextId + (rs.length + 1) := by omega
      rw [hn]

theorem existingPeerMap_mkRows (recs : List GroupRecord) (now : Nat) :
    ∀ n0, existingPeerMap (mkRows recs n0 now) = peerIdxMap recs n0 := by
  induction recs with
  | nil => intro n0; rfl
  | cons r rs ih =>
      intro n0
      unfold mkRows peerIdxMap existingPeerMap
      rw [List.filterMap_cons]
      unfold existingPeerMap at ih
      rw [ih (n0 + 1)]
      rfl

theorem peerIdxMap_map_snd (recs : List GroupRecord) :
    ∀ n, (peerIdxMap recs n).map (·.2) = List.range' n recs.length := by
  induction recs with
  | nil => intro n; rfl
  | cons r rs ih =>
      intro n
      unfold peerIdxMap
      rw [List.map_cons, List.length_cons, List.range'_succ, ih (n + 1)]

theorem lookupPeer_peerIdxMap (recs : List GroupRecord)
    (hnd : (recs.map (·.peer_id)).Nodup) :
    ∀ (n0 i : Nat) (h : i < recs.length),
      lookupPeer (peerIdxMap recs n0) (recs.get ⟨i, h⟩).peer_id = some (n0 + i) := by
  induction recs with
  | nil =>
      intro n0 i h
      simp at h
  | cons r rs ih =>
      rw [List.map_cons, List.nodup_cons] at hnd
      intro n0 i h
      match i with
      | 0 =>
          unfold peerIdxMap lookupPeer
          rw [List.find?_cons_of_pos _ (by simp)]
          simp
      | Nat.succ j =>
          have hj : j < rs.length := by
            rw [List.length_cons] at h
            omega
          have hget : (r :: rs).get ⟨j + 1, h⟩ = rs.get ⟨j, hj⟩ := rfl
          have hmem : (rs.get ⟨j, hj⟩).peer_id ∈ rs.map (·.peer_id) :=
            List.mem_map_of_mem _ (rs.get_mem j hj)
          have hne : ¬ ((rs.get ⟨j, hj⟩).peer_id = r.peer_id) := fun he =>
            hnd.1 (he ▸ hmem)
          rw [hget]
          unfold peerIdxMap lookupPeer
          rw [List.find?_cons_of_neg _
            (by simp only [decide_eq_true_eq]; exact fun he => hne he.symm)]
          have := ih hnd.2 (n0 + 1) j hj
          unfold lookupPeer at this
          rw [this]
          congr 1
          omega

theorem mem_mkRows (recs : List GroupRecord) (now : Nat) :
    ∀ (n0 : Nat), ∀ row ∈ mkRows recs n0 now, ∃ i, ∃ h : i < recs.length,
      row = insertedFromRecord (recs.get ⟨i, h⟩) (n0 + i) now := by
  induction recs with
  | nil =>
      intro n0 row hrow
      cases hrow
  | cons r rs ih =>
      intro n0 row hrow
      unfold mkRows at hrow
      rcases List.mem_cons.mp hrow with rfl | htail
      · exact ⟨0, by simp, rfl⟩
      · obtain ⟨i, hi, hrow'⟩ := ih (n0 + 1) row htail
        refine ⟨i + 1, by rw [List.length_cons]; omega, ?_⟩
        rw [hrow']
        congr 1
        omega

theorem updatedFromRecord_inserted (rec : GroupRecord) (i now : Nat) :
    updatedFromRecord rec (insertedFromRecord rec i now)
      = insertedFromRecord rec i now := rfl

theorem map_update_id (table : List PromoGroup) (rec : GroupRecord) (rowId : Nat)
    (h : ∀ row ∈ table, row.id = rowId → updatedFromRecord rec row = row) :
    (table.map fun r => if r.id = rowId then updatedFromRecord rec r else r)
      = table := by
  induction table with
  | nil => rfl
  | cons x xs ih =>
      rw [List.map_cons]
      by_cases hx : x.id = rowId
      · rw [if_pos hx, h x (List.mem_cons_self _ _) hx,
          ih fun row hrow hid => h row (List.mem_cons_of_mem _ hrow) hid]
      · rw [if_neg hx, ih fun row hrow hid => h row (List.mem_cons_of_mem _ hrow) hid]

theorem applyRecordsLoop_all_updates (pmap : List (Int × Nat)) (now : Nat)
    (recs : List GroupRecord) :
    ∀ (k : Nat) (table : List PromoGroup) (writes : List CatalogWrite)
      (seen : List Nat) (nextId : Nat),
      (∀ (i : Nat) (h : i < recs.length),
        lookupPeer pmap (recs.get ⟨i, h⟩).peer_id = some (k + i)) →
      (∀ (i : Nat) (h : i < recs.length), ∀ row ∈ table, row.id = k + i →
        updatedFromRecord (recs.get ⟨i, h⟩) row = row) →
      applyRecordsLoop pmap now recs table writes seen nextId
        = (table, writes ++ (List.range' k recs.length).map CatalogWrite.updateRow,
           seen ++ List.range' k recs.length, nextId) := by
  induction recs with
  | nil =>
      intro k table writes seen nextId _ _
      simp [applyRecordsLoop]
  | cons r rs ih =>
      intro k table writes seen nextId hlook htab
      have h0 : lookupPeer pmap r.peer_id = some k := by
        have := hlook 0 (by simp)
        simpa using this
      have hstep : applyRecordsLoop pmap now (r :: rs) table writes seen nextId
          = applyRecordsLoop pmap now rs
            (table.map fun row => if row.id = k then updatedFromRecord r row else row)
            (writes ++ [CatalogWrite.updateRow k]) (seen ++ [k]) nextId := by
        conv_lhs => unfold applyRecordsLoop
        rw [h0]
      rw [hstep]
      rw [map_update_id table r k fun row hrow hid =>
        htab 0 (by simp) row hrow (by rw [hid]; omega)]
      rw [ih (k + 1) table (writes ++ [CatalogWrite.updateRow k]) (seen ++ [k]) nextId
        ?hlook ?htab]
      case hlook =>
        intro i h
        have hh : i + 1 < (r :: rs).length := by
          rw [List.length_cons]
          omega
        have := hlook (i + 1) hh
        have hget : (r :: rs).get ⟨i + 1, hh⟩ = rs.get ⟨i, h⟩ := rfl
        rw [hget] at this
        rw [this]
        congr 1
        omega
      case htab =>
        intro i h row hrow hid
        have hh : i + 1 < (r :: rs).length := by
          rw [List.length_cons]
          omega
        have hget : (r :: rs).get ⟨i + 1, hh⟩ = rs.get ⟨i, h⟩ := rfl
        have := htab (i + 1) hh row hrow (by rw [hid]; omega)
        rwa [hget] at this
      rw [List.length_cons, List.range'_succ]
      simp only [List.map_cons, List.cons_append]
      rw [List.append_assoc, List.append_assoc]
      simp only [List.singleton_append]

/-- C8, counterexample: synchronizing once from an empty catalog and then a
second time with the identical external list leaves the stored state
unchanged but performs one catalog write (an `UPDATE` of the existing row),
refuting "zero catalog writes". -/
theorem c8_second_sync_writes_counterexample :
    (apply_promo_group_records (apply_promo_group_records [] [groupRecA] 1 10).1
        [groupRecA] 2 20).2 = [CatalogWrite.updateRow 1] ∧
    (apply_promo_group_records (apply_promo_group_records [] [groupRecA] 1 10).1
        [groupRecA] 2 20).2 ≠ [] ∧
    (apply_promo_group_records (apply_promo_group_records [] [groupRecA] 1 10).1
        [groupRecA] 2 20).1 = (apply_promo_group_records [] [groupRecA] 1 10).1 := by
  refine ⟨rfl, by decide, rfl⟩

/-- First synchronization against an empty catalog: every record is
inserted (one insert write per record), nothing is updated or disabled. -/
theorem apply_from_empty (records : List GroupRecord) (n0 now : Nat) :
    apply_promo_group_records [] records n0 now
      = (mkRows records n0 now,
         (List.range' n0 records.length).map CatalogWrite.insertRow) := by
  unfold apply_promo_group_records
  have hmap : existingPeerMap [] = [] := rfl
  rw [hmap, applyRecordsLoop_empty_map now records [] [] [] n0]
  simp [disableMissing_nil]

/-- C8, amended: target-catalog synchronization is idempotent in its effect
but not write-free: re-applying the reconciliation with an external list
identical to the stored state (the state the first application produced)
leaves every catalog row unchanged and performs no insert and no disable,
but it does issue one UPDATE statement per record (rewriting the same
values), so the write count equals the number of records — nonzero whenever
the list is nonempty. -/
theorem c8_resync_idempotent_state_but_updates (records : List GroupRecord)
    (n0 n1 now now2 : Nat) (hnd : (records.map (·.peer_id)).Nodup) :
    (apply_promo_group_records (apply_promo_group_records [] records n0 now).1
        records n1 now2).1 = (apply_promo_group_records [] records n0 now).1 ∧
    (apply_promo_group_records (apply_promo_group_records [] records n0 now).1
        records n1 now2).2
      = (List.range' n0 records.length).map CatalogWrite.updateRow ∧
    (records ≠ [] →
      (apply_promo_group_records (apply_promo_group_records [] records n0 now).1
        records n1 now2).2 ≠ []) := by
  rw [apply_from_empty records n0 now]
  have hpmap : existingPeerMap (mkRows records n0 now) = peerIdxMap records n0 :=
    existingPeerMap_mkRows records now n0
  have hloop : applyRecordsLoop (existingPeerMap (mkRows records n0 now)) now2
      records (mkRows records n0 now) [] [] n1
      = (mkRows records n0 now,
         [] ++ (List.range' n0 records.length).map CatalogWrite.updateRow,
         [] ++ List.range' n0 records.length, n1) := by
    rw [hpmap]
    refine applyRecordsLoop_all_updates (peerIdxMap records n0) now2 records n0
      (mkRows records n0 now) [] [] n1 (lookupPeer_peerIdxMap records hnd n0) ?_
    intro i h row hrow hid
    obtain ⟨j, hj, hrow'⟩ := mem_mkRows records now n0 row hrow
    have hij : j = i := by
      have : row.id = n0 + j := by rw [hrow']; rfl
      omega
    subst hij
    rw [hrow']
    exact updatedFromRecord_inserted _ _ _
  have hmanaged : ((existingPeerMap (mkRows records n0 now)).map (·.2))
      = List.range' n0 records.length := by
    rw [hpmap, peerIdxMap_map_snd records n0]
  have hfilter : ((existingPeerMap (mkRows records n0 now)).map (·.2)).filter
      (fun i => decide (i ∉ (applyRecordsLoop
        (existingPeerMap (mkRows records n0 now)) now2 records
        (mkRows records n0 now) [] [] n1).2.2.1)) = [] := by
    rw [hloop]
    simp only [List.nil_append]
    rw [hmanaged]
    rw [List.filter_eq_nil_iff]
    intro a ha
    simp [ha]
  unfold apply_promo_group_records
  rw [hfilter]
  rw [hloop]
  refine ⟨disableMissing_nil _, by simp, ?_⟩
  intro hne hnil
  simp only [List.nil_append, List.map_nil, List.append_nil] at hnil
  have hlz : records.length ≠ 0 := fun h0 => hne (List.length_eq_zero.mp h0)
  rw [List.map_eq_nil_iff] at hnil
  have hlen : (List.range' n0 records.length).length = records.length :=
    List.length_range' _ _ _
  rw [hnil] at hlen
  exact hlz hlen.symm

/-- C8, witness for the amended theorem: re-syncing the one-record catalog
keeps the state and issues exactly one update write. -/
theorem c8_resync_idempotent_state_but_updates_witness :
    (apply_promo_group_records (apply_promo_group_records [] [groupRecA] 1 10).1
        [groupRecA] 2 20).1 = (apply_promo_group_records [] [groupRecA] 1 10).1 ∧
    (apply_promo_group_records (apply_promo_group_records [] [groupRecA] 1 10).1
        [groupRecA] 2 20).2
      = (List.range' 1 [groupRecA].length).map CatalogWrite.updateRow ∧
    ([groupRecA] ≠ ([] : List GroupRecord) →
      (apply_promo_group_records (apply_promo_group_records [] [groupRecA] 1 10).1
        [groupRecA] 2 20).2 ≠ []) :=
  c8_resync_idempotent_state_but_updates [groupRecA] 1 2 10 20 (by decide)

/-- C7, witness: instantiating the filter theorem on a concrete two-member
table shows the eligible member is selected, the already-contacted member is
excluded, and submitting against an empty table fails with an error. -/
theorem c7_broadcast_recipients_filter_witness :
    (memberEligible ∈
        fetch_pending_broadcast_members [memberEligible, memberContacted] none none) ∧
    memberContacted ∉
        fetch_pending_broadcast_members [memberEligible, memberContacted] none none ∧
    ∃ e, send_start [] "hello" none none = .error e := by
  refine ⟨?_, ?_, ?_⟩
  · exact ((c7_broadcast_recipients_filter [memberEligible, memberContacted]
      none "hello" none).1 memberEligible).mpr ⟨by decide, by decide⟩
  · intro hmem
    have h := ((c7_broadcast_recipients_filter [memberEligible, memberContacted]
      none "hello" none).1 memberContacted).mp hmem
    exact absurd h.2 (by decide)
  · exact (c7_broadcast_recipients_filter [] none "hello" none).2.2.1 (by decide)

end TgScraper
